import Mathlib

/-!
Verification of the product-API server (`src/server.js`).

The file shallowly embeds the data model, middleware and route handlers of the
Express application as executable Lean definitions, and proves the stated
properties about them.  JavaScript numbers are modelled symbolically as
`JNum` (a finite value as a rational, `NaN`, and the two infinities — the
server performs no arithmetic on them, so no floating-point rounding is
involved).  Raw JSON body fields are modelled as `JValue`.
-/

/-- A JavaScript number: a finite value, `NaN`, `+Infinity` or `-Infinity`.
The server only stores prices and tests `typeof`/`Number.isNaN`, so this
symbolic model is exact for everything the code does. -/
inductive JNum where
  | finite (q : ℚ)
  | nan
  | posInf
  | negInf
deriving DecidableEq, Repr

/-- A JavaScript value as it can appear in a parsed JSON request body
(plus `undefined` for an absent field).  `object` stands for any
non-primitive value (object or array); the server never inspects the inside
of such a value, so this coarse constructor is exact for everything it does. -/
inductive JValue where
  | undefined
  | null
  | str (s : String)
  | num (n : JNum)
  | bool (b : Bool)
  | object
deriving DecidableEq, Repr

/-- `typeof v === 'string'` test on a `JValue`. -/
def JValue.isStr : JValue → Bool
  | .str _ => true
  | _ => false

/-- Extract the string of a `JValue` known (from `validateProduct`) to be a
string.  The default branch is unreachable in every handler, which runs
`validateProduct` before reading the field. -/
def JValue.asStr : JValue → String
  | .str s => s
  | _ => ""

/-- Extract the number of a `JValue` known (from `validateProduct`) to be a
non-`NaN` number.  The default branch is unreachable in the handlers. -/
def JValue.asNum : JValue → JNum
  | .num n => n
  | _ => .nan

/-- Extract the boolean of a `JValue` known (from `validateProduct`) to be a
boolean.  The default branch is unreachable in the handlers. -/
def JValue.asBool : JValue → Bool
  | .bool b => b
  | _ => false

/-- A stored product record (`server.js` lines 30–55, 129–131, 139–140).
`name`, `category`, `price` and `inStock` are always written through
`validateProduct`, so they are stored at their validated primitive types;
`description` is *not* validated and is stored raw, hence `JValue`. -/
structure Product where
  id : String
  name : String
  description : JValue
  price : JNum
  category : String
  inStock : Bool
deriving DecidableEq, Repr

/-- A create/update request body as destructured by the handlers:
`const { name, description, price, category, inStock } = req.body`.
An absent field destructures to `undefined`. -/
structure Body where
  name : JValue
  description : JValue
  price : JValue
  category : JValue
  inStock : JValue
deriving DecidableEq, Repr

/-- The destructuring default `description = ''` (lines 129, 139): the
default applies exactly when the field is `undefined`. -/
def descOrDefault (v : JValue) : JValue :=
  match v with
  | .undefined => .str ""
  | w => w

/-- The in-memory seed data (`server.js` lines 30–55). -/
def seededProducts : List Product :=
  [⟨"1", "Laptop", .str "High-performance laptop with 16GB RAM",
    .finite 1200, "electronics", true⟩,
   ⟨"2", "Smartphone", .str "Latest model with 128GB storage",
    .finite 800, "electronics", true⟩,
   ⟨"3", "Coffee Maker", .str "Programmable coffee maker with timer",
    .finite 50, "kitchen", false⟩]

/-- `process.env.API_KEY || 'secret-key'` (line 66): an unset or empty
environment variable falls back to the default secret. -/
def expectedKey (envApiKey : Option String) : String :=
  match envApiKey with
  | none => "secret-key"
  | some s => if s.isEmpty then "secret-key" else s

/-- `requireApiKey` middleware (lines 64–69): the request passes iff the
`x-api-key` header is present, truthy (non-empty) and equal to the secret;
`if (!key || key !== expected)` rejects with 401 otherwise. -/
def requireApiKey (expected : String) (key : Option String) : Bool :=
  match key with
  | none => false
  | some k => !k.isEmpty && k == expected

/-- `!s.trim()`: the trimmed string is falsy (empty) exactly when every
character of `s` is whitespace. -/
def trimIsEmpty (s : String) : Bool :=
  s.toList.all Char.isWhitespace

/-- `s.toLowerCase()`, character by character (the strings the server
compares are ASCII, where this is exact). -/
def jsToLower (s : String) : String :=
  String.mk (s.toList.map Char.toLower)

/-- `typeof name !== 'string' || !name.trim()` (line 75): fails when the
value is not a string or trims to the empty string. -/
def nameFieldBad : JValue → Bool
  | .str s => trimIsEmpty s
  | _ => true

/-- `typeof price !== 'number' || Number.isNaN(price)` (line 76): fails when
the value is not a number or is `NaN`.  Note the code does not use
`Number.isFinite`, so the infinities pass this check. -/
def priceFieldBad : JValue → Bool
  | .num .nan => true
  | .num _ => false
  | _ => true

/-- `typeof category !== 'string' || !category.trim()` (line 77). -/
def categoryFieldBad : JValue → Bool
  | .str s => trimIsEmpty s
  | _ => true

/-- `typeof inStock !== 'boolean'` (line 78). -/
def inStockFieldBad : JValue → Bool
  | .bool _ => false
  | _ => true

/-- `validateProduct` middleware (lines 72–81): the list of error strings
pushed, in source order. -/
def validateProduct (b : Body) : List String :=
  (if nameFieldBad b.name then ["name (string) is required"] else []) ++
  (if priceFieldBad b.price then ["price (number) is required"] else []) ++
  (if categoryFieldBad b.category then ["category (string) is required"] else []) ++
  (if inStockFieldBad b.inStock then ["inStock (boolean) is required"] else [])

/-- Decimal digit run to a natural number. -/
def digitsVal (ds : List Char) : Nat :=
  ds.foldl (fun a c => a * 10 + (c.toNat - 48)) 0

/-- `parseInt(s, 10)`: skip leading whitespace, optional sign, then the
longest run of decimal digits; `none` models the `NaN` result when no digit
is found. -/
def jsParseInt10 (s : String) : Option Int :=
  let cs := s.toList.dropWhile Char.isWhitespace
  match cs with
  | '-' :: rest =>
    let ds := rest.takeWhile Char.isDigit
    if ds.isEmpty then none else some (-(digitsVal ds : Int))
  | '+' :: rest =>
    let ds := rest.takeWhile Char.isDigit
    if ds.isEmpty then none else some (digitsVal ds : Int)
  | _ =>
    let ds := cs.takeWhile Char.isDigit
    if ds.isEmpty then none else some (digitsVal ds : Int)

/-- JavaScript `x || d` on the result of `parseInt`: `NaN` (here `none`)
and `0` are falsy and fall back to the default. -/
def jsOrDefault (n : Option Int) (d : Int) : Int :=
  match n with
  | none => d
  | some 0 => d
  | some m => m

/-- Effective page, `Math.max(1, parseInt(page, 10) || 1)` (line 106); an
absent `page` destructures to the number `1`, which `parseInt` receives as
the string `"1"`. -/
def effPage (page : Option String) : Int :=
  max 1 (jsOrDefault (jsParseInt10 (page.getD "1")) 1)

/-- Effective limit, `Math.max(1, parseInt(limit, 10) || 10)` (line 107); an
absent `limit` destructures to the number `10`. -/
def effLimit (limit : Option String) : Int :=
  max 1 (jsOrDefault (jsParseInt10 (limit.getD "10")) 10)

/-- Does the needle occur starting at the head of the haystack? -/
def startsAt : List Char → List Char → Bool
  | [], _ => true
  | _ :: _, [] => false
  | a :: as, b :: bs => a == b && startsAt as bs

/-- JavaScript `s.includes(t)`: `t` occurs contiguously somewhere in `s`
(the empty needle always occurs). -/
def strIncludes (s t : String) : Bool :=
  (List.range (s.toList.length + 1)).any (fun i => startsAt t.toList (s.toList.drop i))

/-- `(p.description || '').toLowerCase()` (line 102) on the raw stored
description: falsy values are replaced by `''`; calling `toLowerCase` on a
truthy non-string throws a `TypeError`, modelled as `none`. -/
def searchText : JValue → Option String
  | .str s => some (jsToLower s)
  | .undefined => some ""
  | .null => some ""
  | .num (.finite q) => if q = 0 then some "" else none
  | .num .nan => some ""
  | .num .posInf => none
  | .num .negInf => none
  | .bool b => if b then none else some ""
  | .object => none

/-- The `q` filter body (lines 100–103) over a list, with JavaScript
short-circuiting: the description is only touched when the name does not
match; an exceptional element aborts the whole filter (`none`). -/
def qFilter (term : String) : List Product → Option (List Product)
  | [] => some []
  | p :: rest =>
    if strIncludes (jsToLower p.name) term then
      (qFilter term rest).map (p :: ·)
    else
      match searchText p.description with
      | none => none
      | some d =>
        if strIncludes d term then (qFilter term rest).map (p :: ·)
        else qFilter term rest

/-- The category filter step (lines 94–97): skipped when `category` is
falsy (absent or the empty string), otherwise a case-insensitive exact
match. -/
def categoryStep (category : Option String) (ps : List Product) : List Product :=
  match category with
  | none => ps
  | some c =>
    if c.isEmpty then ps
    else ps.filter (fun p => jsToLower p.category == jsToLower c)

/-- The text filter step (lines 98–104): skipped when `q` is falsy. -/
def qStep (q : Option String) (ps : List Product) : Option (List Product) :=
  match q with
  | none => some ps
  | some t => if t.isEmpty then some ps else qFilter (jsToLower t) ps

/-- The JSON body of a successful GET `/api/products` response
(lines 111–117). -/
structure ListResponse where
  results : Nat
  page : Int
  total : Nat
  products : List Product
deriving DecidableEq, Repr

/-- The observable outcome of a request: the relevant JSON payload of the
response, an operational error (`status`, `message`, rendered with
`status: 'fail'` by the terminal error handler, lines 159–164), or an
unexpected thrown error rendered as a 500 with `status: 'error'`. -/
inductive Outcome where
  | textOk (body : String)
  | listOk (r : ListResponse)
  | productOk (status : Nat) (p : Product)
  | statsOk (countByCategory : List (String × Nat)) (total : Nat)
  | err (status : Nat) (message : String)
  | internalError
deriving DecidableEq, Repr

/-- GET `/api/products` handler (lines 90–118). -/
def listHandler (ps : List Product) (category q page limit : Option String) : Outcome :=
  let results1 := categoryStep category ps
  match qStep q results1 with
  | none => .internalError
  | some results2 =>
    let p := effPage page
    let l := effLimit limit
    let start := ((p - 1) * l).toNat
    let paged := (results2.drop start).take l.toNat
    .listOk ⟨paged.length, p, results2.length, paged⟩

/-- GET `/api/products/:id` handler (lines 121–125): `products.find` by
exact id, 404 when absent. -/
def getByIdHandler (ps : List Product) (rid : String) : Outcome :=
  match ps.find? (fun p => p.id == rid) with
  | none => .err 404 "Product not found"
  | some p => .productOk 200 p

/-- `Array.prototype.findIndex`, with `none` in place of `-1`. -/
def jsFindIndex (pred : α → Bool) : List α → Option Nat
  | [] => none
  | a :: as => if pred a then some 0 else (jsFindIndex pred as).map (· + 1)

/-- The effect of `arr.splice(idx, 1)` on the array. -/
def jsRemoveAt : List α → Nat → List α
  | [], _ => []
  | _ :: as, 0 => as
  | a :: as, n + 1 => a :: jsRemoveAt as n

/-- POST `/api/products` handler with its middleware chain
(`requireApiKey`, `validateProduct`, handler; lines 128–133).  `genId`
models the string returned by `uuidv4()` for this call.  Returns the
outcome and the new collection. -/
def postHandler (expected : String) (key : Option String) (b : Body) (genId : String)
    (ps : List Product) : Outcome × List Product :=
  if requireApiKey expected key = false then
    (.err 401 "Invalid or missing API key", ps)
  else if (validateProduct b).isEmpty = false then
    (.err 400 (String.intercalate "; " (validateProduct b)), ps)
  else
    let newProduct : Product :=
      ⟨genId, b.name.asStr, descOrDefault b.description, b.price.asNum,
       b.category.asStr, b.inStock.asBool⟩
    (.productOk 201 newProduct, ps ++ [newProduct])

/-- PUT `/api/products/:id` handler with its middleware chain
(lines 136–142).  `products[idx] = { ...products[idx], name, description,
price, category, inStock }` spreads the old record and then overwrites every
field but `id`, so only `id` survives from the old record.  The inner
`none` branch is unreachable: `jsFindIndex` only returns in-bounds
indices. -/
def putHandler (expected : String) (key : Option String) (rid : String) (b : Body)
    (ps : List Product) : Outcome × List Product :=
  if requireApiKey expected key = false then
    (.err 401 "Invalid or missing API key", ps)
  else if (validateProduct b).isEmpty = false then
    (.err 400 (String.intercalate "; " (validateProduct b)), ps)
  else
    match jsFindIndex (fun p => p.id == rid) ps with
    | none => (.err 404 "Product not found", ps)
    | some idx =>
      match ps[idx]? with
      | none => (.err 404 "Product not found", ps)
      | some old =>
        let upd : Product :=
          ⟨old.id, b.name.asStr, descOrDefault b.description, b.price.asNum,
           b.category.asStr, b.inStock.asBool⟩
        (.productOk 200 upd, ps.set idx upd)

/-- DELETE `/api/products/:id` handler with its middleware chain
(lines 145–150): `splice(idx, 1)` removes the record at the found index and
returns it.  The inner `none` branch is unreachable as in `putHandler`. -/
def deleteHandler (expected : String) (key : Option String) (rid : String)
    (ps : List Product) : Outcome × List Product :=
  if requireApiKey expected key = false then
    (.err 401 "Invalid or missing API key", ps)
  else
    match jsFindIndex (fun p => p.id == rid) ps with
    | none => (.err 404 "Product not found", ps)
    | some idx =>
      match ps[idx]? with
      | none => (.err 404 "Product not found", ps)
      | some removed => (.productOk 200 removed, jsRemoveAt ps idx)

/-- `acc[p.category] = (acc[p.category] || 0) + 1` on a JavaScript object
modelled as an insertion-ordered association list. -/
def bump : List (String × Nat) → String → List (String × Nat)
  | [], c => [(c, 1)]
  | (k, v) :: rest, c => if k = c then (k, v + 1) :: rest else (k, v) :: bump rest c

/-- GET `/api/products/stats` handler body (lines 153–156). -/
def statsHandler (ps : List Product) : Outcome :=
  .statsOk (ps.foldl (fun acc p => bump acc p.category) []) ps.length

/-- Dispatch of a GET request over its path segments, in route registration
order (lines 84, 90, 121, 153).  Express matches routes in the order they
were registered, and the pattern `/api/products/:id` matches any
three-segment path `api/products/<seg>` — including `api/products/stats` —
so the `/api/products/stats` route registered later never receives a
request.  Unmatched paths get the framework's default 404. -/
def handleGet (ps : List Product) (segs : List String)
    (category q page limit : Option String) : Outcome :=
  match segs with
  | [] => .textOk "Hello World — Product API. Use /api/products"
  | ["api", "products"] => listHandler ps category q page limit
  | ["api", "products", rid] => getByIdHandler ps rid
  | _ => .err 404 "Cannot GET"

/-- A request to the API.  For a create, `genId` is the string `uuidv4()`
returns during that request. -/
inductive Request where
  | get (segs : List String) (category q page limit : Option String)
  | post (key : Option String) (b : Body) (genId : String)
  | put (key : Option String) (rid : String) (b : Body)
  | delete (key : Option String) (rid : String)
deriving DecidableEq, Repr

/-- One request against the server state: outcome plus new state.  GET
handlers never mutate the collection. -/
def handle (expected : String) (req : Request) (ps : List Product) :
    Outcome × List Product :=
  match req with
  | .get segs category q page limit => (handleGet ps segs category q page limit, ps)
  | .post key b genId => postHandler expected key b genId ps
  | .put key rid b => putHandler expected key rid b ps
  | .delete key rid => deleteHandler expected key rid ps

/-- Run a sequence of requests, threading the collection. -/
def runReqs (expected : String) : List Request → List Product → List Product
  | [], ps => ps
  | r :: rs, ps => runReqs expected rs (handle expected r ps).2

/-- The id `uuidv4()` supplies for a create is fresh for the current
collection (the collision-freedom contract of version-4 UUIDs). -/
def freshOk (ps : List Product) : Request → Bool
  | .post _ _ genId => ps.all (fun p => p.id != genId)
  | _ => true

/-- Every create in the sequence draws a `uuidv4()` value fresh for the
collection at the moment it runs. -/
def freshRun (expected : String) : List Product → List Request → Bool
  | _, [] => true
  | ps, r :: rs => freshOk ps r && freshRun expected (handle expected r ps).2 rs

/-- The `?category=` predicate of the list endpoint, as a single pure
predicate: vacuous when the parameter is falsy, otherwise case-insensitive
exact match. -/
def catMatch (category : Option String) (p : Product) : Bool :=
  match category with
  | none => true
  | some c => if c.isEmpty then true else jsToLower p.category == jsToLower c

/-- The `?q=` predicate of the list endpoint, as a single pure predicate
(for string descriptions): vacuous when the parameter is falsy, otherwise a
case-insensitive substring match on name or description. -/
def qMatch (q : Option String) (p : Product) : Bool :=
  match q with
  | none => true
  | some t =>
    if t.isEmpty then true
    else strIncludes (jsToLower p.name) (jsToLower t) ||
         strIncludes (jsToLower p.description.asStr) (jsToLower t)

/-- A concrete valid body used by the witnesses. -/
def sampleBody : Body :=
  ⟨.str "Widget", .undefined, .num (.finite 5), .str "tools", .bool true⟩

/-! ### Helper lemmas about the list primitives used by the handlers -/

theorem jsFindIndex_eq_none_iff (pred : α → Bool) (l : List α) :
    jsFindIndex pred l = none ↔ ∀ x ∈ l, pred x = false := by
  induction l with
  | nil => simp [jsFindIndex]
  | cons a as ih =>
    by_cases h : pred a = true
    · simp [jsFindIndex, h]
    · have h' : pred a = false := by revert h; cases pred a <;> simp
      simp [jsFindIndex, h', Option.map_eq_none', ih, List.forall_mem_cons]

theorem jsFindIndex_append_cons (pred : α → Bool) (ys : List α) (x : α) (zs : List α)
    (hys : ∀ y ∈ ys, pred y = false) (hx : pred x = true) :
    jsFindIndex pred (ys ++ x :: zs) = some ys.length := by
  induction ys with
  | nil => simp [jsFindIndex, hx]
  | cons y ys ih =>
    have hy : pred y = false := hys y (by simp)
    simp only [List.cons_append, jsFindIndex, hy, Bool.false_eq_true, if_false,
      List.append_eq]
    rw [ih (fun y hy => hys y (by simp [hy]))]
    simp

theorem getElem?_append_cons (ys : List α) (x : α) (zs : List α) :
    (ys ++ x :: zs)[ys.length]? = some x := by
  induction ys with
  | nil => simp
  | cons y ys ih => simpa using ih

theorem set_append_cons (ys : List α) (x : α) (zs : List α) (y : α) :
    (ys ++ x :: zs).set ys.length y = ys ++ y :: zs := by
  induction ys with
  | nil => simp
  | cons a ys ih => simp [List.set, ih]

theorem jsRemoveAt_append_cons (ys : List α) (x : α) (zs : List α) :
    jsRemoveAt (ys ++ x :: zs) ys.length = ys ++ zs := by
  induction ys with
  | nil => simp [jsRemoveAt]
  | cons a ys ih => simp [jsRemoveAt, ih]

theorem jsRemoveAt_sublist (l : List α) (n : Nat) : List.Sublist (jsRemoveAt l n) l := by
  induction l generalizing n with
  | nil => simp [jsRemoveAt]
  | cons a as ih =>
    cases n with
    | zero => exact List.Sublist.cons a (List.Sublist.refl as)
    | succ m => exact List.Sublist.cons₂ a (ih m)

theorem map_id_set_of_get (ps : List Product) (idx : Nat) (upd old : Product)
    (hg : ps[idx]? = some old) (hid : upd.id = old.id) :
    (ps.set idx upd).map Product.id = ps.map Product.id := by
  induction ps generalizing idx with
  | nil => simp at hg
  | cons a as ih =>
    cases idx with
    | zero =>
      simp at hg
      simp [List.set, hid, hg]
    | succ m =>
      simp at hg
      simp [List.set, ih m hg]

/-- Decompose a collection with pairwise-distinct ids around a member: the
member splits the list and no other element shares its id. -/
theorem nodup_id_decomp (ps : List Product) (p : Product)
    (hnd : (ps.map Product.id).Nodup) (hp : p ∈ ps) :
    ∃ ys zs, ps = ys ++ p :: zs ∧
      (∀ y ∈ ys, y.id ≠ p.id) ∧ (∀ z ∈ zs, z.id ≠ p.id) := by
  obtain ⟨ys, zs, rfl⟩ := List.append_of_mem hp
  refine ⟨ys, zs, rfl, ?_, ?_⟩
  · intro y hy
    rw [List.map_append, List.map_cons] at hnd
    have hdisj := (List.nodup_append.mp hnd).2.2
    intro hcontra
    exact hdisj (List.mem_map_of_mem Product.id hy) (by simp [hcontra])
  · intro z hz
    rw [List.map_append, List.map_cons] at hnd
    have hcons := (List.nodup_append.mp hnd).2.1
    have := (List.nodup_cons.mp hcons).1
    intro hcontra
    exact this (by rw [← hcontra]; exact List.mem_map_of_mem Product.id hz)

theorem jsOrDefault_of_ne_zero (n d : Int) (hn : n ≠ 0) : jsOrDefault (some n) d = n := by
  unfold jsOrDefault
  split <;> simp_all

/-! ### Claim theorems -/

/-- C1: the claim says GET `/api/products/stats` returns a success body with
the per-category counts and the total.  In the code the route
`/api/products/:id` is registered (line 121) before `/api/products/stats`
(line 153), and Express dispatches in registration order, so the request is
captured by the `:id` handler with `id = "stats"` and answered 404 — even
though the stats handler itself, were it reachable, would compute exactly
the claimed counts (shown in the second conjunct for the seeded data). -/
theorem statsRoute_shadowed_by_id_route :
    handleGet seededProducts ["api", "products", "stats"] none none none none =
      .err 404 "Product not found" ∧
    statsHandler seededProducts = .statsOk [("electronics", 2), ("kitchen", 1)] 3 :=
  ⟨rfl, rfl⟩

/-- C2 counterexample: a POST body whose `price` is `+Infinity` passes
`validateProduct` (the check is `typeof price !== 'number' ||
Number.isNaN(price)`, which the infinities satisfy) and is created with
status 201 — not rejected with a 400 listing `price`, as the claim
requires for every non-finite price. -/
theorem price_infinity_passes_validation :
    validateProduct ⟨.str "Gadget", .undefined, .num .posInf, .str "toys", .bool true⟩ = [] ∧
    validateProduct ⟨.str "Gadget", .undefined, .num .negInf, .str "toys", .bool true⟩ = [] ∧
    postHandler (expectedKey none) (some "secret-key")
        ⟨.str "Gadget", .undefined, .num .posInf, .str "toys", .bool true⟩ "id-9" [] =
      (.productOk 201 ⟨"id-9", "Gadget", .str "", .posInf, "toys", true⟩,
       [⟨"id-9", "Gadget", .str "", .posInf, "toys", true⟩]) :=
  ⟨by decide, by decide, by decide⟩

/-- C2 amended: for every create or update request body whose `price` field
is not of number type or is `NaN` (the infinities are accepted), an
authorized request fails with a Validation error (400) whose message is the
joined error list, and that list contains the `price` violation. -/
theorem price_validation_amended (envApiKey : Option String) (key : Option String)
    (b : Body) (genId rid : String) (ps : List Product)
    (hk : requireApiKey (expectedKey envApiKey) key = true)
    (hbad : ∀ n, b.price = .num n → n = JNum.nan) :
    "price (number) is required" ∈ validateProduct b ∧
    postHandler (expectedKey envApiKey) key b genId ps =
      (.err 400 (String.intercalate "; " (validateProduct b)), ps) ∧
    putHandler (expectedKey envApiKey) key rid b ps =
      (.err 400 (String.intercalate "; " (validateProduct b)), ps) := by
  have hpb : priceFieldBad b.price = true := by
    cases hpv : b.price with
    | num n =>
      have hn := hbad n hpv
      subst hn
      rfl
    | undefined => rfl
    | null => rfl
    | str s => rfl
    | bool c => rfl
    | object => rfl
  have hmem : "price (number) is required" ∈ validateProduct b := by
    simp [validateProduct, hpb]
  have hne : (validateProduct b).isEmpty = false := by
    cases hE : (validateProduct b).isEmpty
    · rfl
    · exfalso
      rw [List.isEmpty_iff] at hE
      rw [hE] at hmem
      simp at hmem
  exact ⟨hmem, by simp [postHandler, hk, hne], by simp [putHandler, hk, hne]⟩

theorem price_validation_amended_witness :
    "price (number) is required" ∈
      validateProduct ⟨.str "W", .undefined, .str "abc", .str "c", .bool true⟩ ∧
    postHandler (expectedKey none) (some "secret-key")
        ⟨.str "W", .undefined, .str "abc", .str "c", .bool true⟩ "g1" seededProducts =
      (.err 400 (String.intercalate "; "
        (validateProduct ⟨.str "W", .undefined, .str "abc", .str "c", .bool true⟩)),
       seededProducts) ∧
    putHandler (expectedKey none) (some "secret-key") "1"
        ⟨.str "W", .undefined, .str "abc", .str "c", .bool true⟩ seededProducts =
      (.err 400 (String.intercalate "; "
        (validateProduct ⟨.str "W", .undefined, .str "abc", .str "c", .bool true⟩)),
       seededProducts) :=
  price_validation_amended none (some "secret-key")
    ⟨.str "W", .undefined, .str "abc", .str "c", .bool true⟩ "g1" "1" seededProducts
    rfl (fun _ h => nomatch h)

/-- C3 counterexample: a request with `limit=0` does not use an effective
limit of 1.  `parseInt('0', 10)` gives `0`, which is falsy, so
`parseInt(limit, 10) || 10` falls back to the default `10`; on the seeded
data the whole page of 3 products comes back rather than 1. -/
theorem limit_zero_uses_default_ten :
    effLimit (some "0") = 10 ∧ effLimit (some "0") ≠ 1 ∧
    listHandler seededProducts none none none (some "0") =
      .listOk ⟨3, 1, 3, seededProducts⟩ :=
  ⟨rfl, by decide, rfl⟩

/-- C3 amended: the effective page (resp. limit) is the parsed value floored
at 1 when the parameter parses to a nonzero integer, and the default 1
(resp. 10) when the parameter is absent or parses to `NaN` **or to 0** —
`0` is falsy in JavaScript, so `limit=0` yields the default 10, not 1. -/
theorem pagination_params_amended :
    effPage none = 1 ∧ effLimit none = 10 ∧
    effPage (some "0") = 1 ∧ effLimit (some "0") = 10 ∧
    (∀ s, jsParseInt10 s = none → effPage (some s) = 1 ∧ effLimit (some s) = 10) ∧
    (∀ s n, jsParseInt10 s = some n → n ≠ 0 →
      effPage (some s) = max 1 n ∧ effLimit (some s) = max 1 n) := by
  refine ⟨rfl, rfl, rfl, rfl, ?_, ?_⟩
  · intro s h
    constructor <;> simp [effPage, effLimit, jsOrDefault, h]
  · intro s n h hn
    constructor <;>
      simp [effPage, effLimit, h, jsOrDefault_of_ne_zero n _ hn]

theorem pagination_params_amended_witness :
    effPage (some "7") = max 1 7 ∧ effLimit (some "7") = max 1 7 :=
  pagination_params_amended.2.2.2.2.2 "7" 7 rfl (by decide)

/-- C6: for every id absent from the collection, GET by id, an authorized
valid-body PUT, and an authorized DELETE all answer the Not-Found error
(404, "Product not found") — `find`/`findIndex` miss, and the handlers
forward a `NotFoundError`. -/
theorem missing_id_not_found (expected : String) (key : Option String)
    (ps : List Product) (rid : String) (b : Body)
    (hk : requireApiKey expected key = true)
    (hv : validateProduct b = [])
    (habs : ∀ p ∈ ps, p.id ≠ rid) :
    getByIdHandler ps rid = .err 404 "Product not found" ∧
    putHandler expected key rid b ps = (.err 404 "Product not found", ps) ∧
    deleteHandler expected key rid ps = (.err 404 "Product not found", ps) := by
  have hfind : ps.find? (fun p => p.id == rid) = none := by
    apply List.find?_eq_none.mpr
    intro p hp
    simp only [beq_iff_eq]
    exact habs p hp
  have hfi : jsFindIndex (fun p => p.id == rid) ps = none := by
    apply (jsFindIndex_eq_none_iff _ _).mpr
    intro p hp
    exact beq_eq_false_iff_ne.mpr (habs p hp)
  have hvE : (validateProduct b).isEmpty = true := by rw [hv]; rfl
  refine ⟨?_, ?_, ?_⟩
  · simp [getByIdHandler, hfind]
  · simp [putHandler, hk, hvE, hfi]
  · simp [deleteHandler, hk, hfi]

theorem missing_id_not_found_witness :
    getByIdHandler seededProducts "99" = .err 404 "Product not found" ∧
    putHandler (expectedKey none) (some "secret-key") "99" sampleBody seededProducts =
      (.err 404 "Product not found", seededProducts) ∧
    deleteHandler (expectedKey none) (some "secret-key") "99" seededProducts =
      (.err 404 "Product not found", seededProducts) :=
  missing_id_not_found (expectedKey none) (some "secret-key") seededProducts "99"
    sampleBody rfl (by decide) (by decide)

/-- C7: a POST whose `x-api-key` header is absent or differs from the
configured secret is rejected by the `requireApiKey` middleware with the
Unauthorized error (401) before `validateProduct` ever runs, for every
body — so it is never answered with a validation error, and the collection
is untouched. -/
theorem post_requires_api_key (expected : String) (key : Option String) (b : Body)
    (genId : String) (ps : List Product)
    (h : ∀ k, key = some k → k ≠ expected) :
    postHandler expected key b genId ps = (.err 401 "Invalid or missing API key", ps) := by
  have hA : requireApiKey expected key = false := by
    cases key with
    | none => rfl
    | some k =>
      have hne : (k == expected) = false := beq_eq_false_iff_ne.mpr (h k rfl)
      simp [requireApiKey, hne]
  simp [postHandler, hA]

theorem post_requires_api_key_witness :
    postHandler (expectedKey none) (some "wrong-key") sampleBody "uuid-9" seededProducts =
      (.err 401 "Invalid or missing API key", seededProducts) :=
  post_requires_api_key (expectedKey none) (some "wrong-key") sampleBody "uuid-9"
    seededProducts (by intro k hk; cases hk; decide)

/-- C4: a PUT on a present id with a valid body replaces every field of the
stored record except `id` with the submitted values (`description`
defaulting to `''` when absent) — the spread `{ ...products[idx], ...fields }`
lets only `id` survive — and leaves every other record, and the order, as
it was: the new collection is the old one with exactly that slot
rewritten. -/
theorem put_replaces_all_fields (expected : String) (key : Option String)
    (ps : List Product) (p : Product) (b : Body)
    (hk : requireApiKey expected key = true)
    (hv : validateProduct b = [])
    (hnd : (ps.map Product.id).Nodup)
    (hp : p ∈ ps) :
    ∃ ys zs,
      ps = ys ++ p :: zs ∧
      putHandler expected key p.id b ps =
        (.productOk 200 ⟨p.id, b.name.asStr, descOrDefault b.description, b.price.asNum,
                         b.category.asStr, b.inStock.asBool⟩,
         ys ++ ⟨p.id, b.name.asStr, descOrDefault b.description, b.price.asNum,
                b.category.asStr, b.inStock.asBool⟩ :: zs) := by
  obtain ⟨ys, zs, hps, hys, _⟩ := nodup_id_decomp ps p hnd hp
  subst hps
  refine ⟨ys, zs, rfl, ?_⟩
  have hfi : jsFindIndex (fun x => x.id == p.id) (ys ++ p :: zs) = some ys.length :=
    jsFindIndex_append_cons _ ys p zs
      (fun y hy => beq_eq_false_iff_ne.mpr (hys y hy)) (by simp)
  have hget : (ys ++ p :: zs)[ys.length]? = some p := getElem?_append_cons ys p zs
  have hvE : (validateProduct b).isEmpty = true := by rw [hv]; rfl
  simp [putHandler, hk, hvE, hfi, hget, set_append_cons]

theorem put_replaces_all_fields_witness :
    ∃ ys zs,
      seededProducts =
        ys ++ (⟨"1", "Laptop", .str "High-performance laptop with 16GB RAM",
                .finite 1200, "electronics", true⟩ : Product) :: zs ∧
      putHandler (expectedKey none) (some "secret-key") "1" sampleBody seededProducts =
        (.productOk 200 ⟨"1", "Widget", .str "", .finite 5, "tools", true⟩,
         ys ++ (⟨"1", "Widget", .str "", .finite 5, "tools", true⟩ : Product) :: zs) :=
  put_replaces_all_fields (expectedKey none) (some "secret-key") seededProducts
    ⟨"1", "Laptop", .str "High-performance laptop with 16GB RAM",
     .finite 1200, "electronics", true⟩ sampleBody
    rfl (by decide) (by decide)
    (by unfold seededProducts; exact List.mem_cons_self _ _)

/-- C8: an authorized DELETE of a present id removes exactly that record
(`splice(idx, 1)` at the found index), returns the removed record, keeps
every other record in its original relative order, and — the ids being
pairwise distinct — the deleted id no longer answers a subsequent GET by
id. -/
theorem delete_removes_exactly_one (expected : String) (key : Option String)
    (ps : List Product) (p : Product)
    (hk : requireApiKey expected key = true)
    (hnd : (ps.map Product.id).Nodup)
    (hp : p ∈ ps) :
    ∃ ys zs,
      ps = ys ++ p :: zs ∧
      deleteHandler expected key p.id ps = (.productOk 200 p, ys ++ zs) ∧
      (∀ x ∈ ys ++ zs, x.id ≠ p.id) ∧
      getByIdHandler (ys ++ zs) p.id = .err 404 "Product not found" := by
  obtain ⟨ys, zs, hps, hys, hzs⟩ := nodup_id_decomp ps p hnd hp
  subst hps
  have hfi : jsFindIndex (fun x => x.id == p.id) (ys ++ p :: zs) = some ys.length :=
    jsFindIndex_append_cons _ ys p zs
      (fun y hy => beq_eq_false_iff_ne.mpr (hys y hy)) (by simp)
  have hget : (ys ++ p :: zs)[ys.length]? = some p := getElem?_append_cons ys p zs
  have hmem : ∀ x ∈ ys ++ zs, x.id ≠ p.id := by
    intro x hx
    rcases List.mem_append.mp hx with h | h
    · exact hys x h
    · exact hzs x h
  refine ⟨ys, zs, rfl, ?_, hmem, ?_⟩
  · simp [deleteHandler, hk, hfi, hget, jsRemoveAt_append_cons]
  · have hfind : (ys ++ zs).find? (fun x => x.id == p.id) = none := by
      apply List.find?_eq_none.mpr
      intro x hx
      simp only [beq_iff_eq]
      exact hmem x hx
    simp [getByIdHandler, hfind]

theorem delete_removes_exactly_one_witness :
    ∃ ys zs,
      seededProducts =
        ys ++ (⟨"2", "Smartphone", .str "Latest model with 128GB storage",
                .finite 800, "electronics", true⟩ : Product) :: zs ∧
      deleteHandler (expectedKey none) (some "secret-key") "2" seededProducts =
        (.productOk 200 ⟨"2", "Smartphone", .str "Latest model with 128GB storage",
                         .finite 800, "electronics", true⟩, ys ++ zs) ∧
      (∀ x ∈ ys ++ zs, x.id ≠ "2") ∧
      getByIdHandler (ys ++ zs) "2" = .err 404 "Product not found" :=
  delete_removes_exactly_one (expectedKey none) (some "secret-key") seededProducts
    ⟨"2", "Smartphone", .str "Latest model with 128GB storage",
     .finite 800, "electronics", true⟩
    rfl (by decide)
    (by unfold seededProducts; simp)

theorem categoryStep_eq_filter (category : Option String) (ps : List Product) :
    categoryStep category ps = ps.filter (catMatch category) := by
  cases category with
  | none =>
    exact (List.filter_eq_self.mpr (fun p hp => rfl)).symm
  | some c =>
    by_cases hc : c.isEmpty
    · simp only [categoryStep, hc, if_true]
      exact (List.filter_eq_self.mpr (fun p hp => by simp [catMatch, hc])).symm
    · simp only [categoryStep, hc, if_false]
      exact List.filter_congr (fun p hp => by simp [catMatch, hc])

theorem qFilter_eq_filter (term : String) (ps : List Product)
    (hdesc : ∀ p ∈ ps, p.description.isStr = true) :
    qFilter term ps = some (ps.filter (fun p =>
      strIncludes (jsToLower p.name) term ||
      strIncludes (jsToLower p.description.asStr) term)) := by
  induction ps with
  | nil => simp [qFilter]
  | cons p rest ih =>
    have hd : p.description.isStr = true := hdesc p (by simp)
    obtain ⟨s, hs⟩ : ∃ s, p.description = .str s := by
      cases hds : p.description <;> simp [JValue.isStr, hds] at hd ⊢
    have ih' := ih (fun x hx => hdesc x (by simp [hx]))
    by_cases hname : strIncludes (jsToLower p.name) term
    · simp [qFilter, hname, ih', List.filter_cons, hs]
    · by_cases hdm : strIncludes (jsToLower s) term
      · simp [qFilter, hname, hs, searchText, ih', List.filter_cons, JValue.asStr, hdm]
      · simp [qFilter, hname, hs, searchText, ih', List.filter_cons, JValue.asStr, hdm]

theorem qStep_eq_filter (q : Option String) (ps : List Product)
    (hdesc : ∀ p ∈ ps, p.description.isStr = true) :
    qStep q ps = some (ps.filter (qMatch q)) := by
  cases q with
  | none =>
    simp only [qStep]
    exact congrArg some (List.filter_eq_self.mpr (fun p hp => rfl)).symm
  | some t =>
    by_cases ht : t.isEmpty
    · simp only [qStep, ht, if_true]
      exact congrArg some (List.filter_eq_self.mpr (fun p hp => by simp [qMatch, ht])).symm
    · have h1 : qStep (some t) ps = qFilter (jsToLower t) ps := by simp [qStep, ht]
      rw [h1, qFilter_eq_filter (jsToLower t) ps hdesc]
      congr 1
      apply List.filter_congr
      intro p hp
      simp [qMatch, ht]

/-- C5: the list endpoint applies the category filter, then the text filter,
then pagination with offset `(page-1)*limit`; the response's `total` is the
number of matches after filtering and before pagination, its `products` is
the `(page-1)*limit`-offset slice of length at most `limit` of the filtered
list, its `results` is the length of that slice, and its `page` the
effective page.  The hypothesis that stored descriptions are strings is the
data-model invariant (§3 of the spec); it holds for the seed data and for
everything the validated handlers store from string descriptions. -/
theorem list_filters_then_paginates (ps : List Product)
    (category q page limit : Option String)
    (hdesc : ∀ p ∈ ps, p.description.isStr = true) :
    ∃ r : ListResponse,
      listHandler ps category q page limit = .listOk r ∧
      r.total = (ps.filter (fun p => catMatch category p && qMatch q p)).length ∧
      r.products = ((ps.filter (fun p => catMatch category p && qMatch q p)).drop
          ((effPage page - 1) * effLimit limit).toNat).take (effLimit limit).toNat ∧
      r.results = r.products.length ∧
      r.page = effPage page := by
  have hdesc1 : ∀ p ∈ categoryStep category ps, p.description.isStr = true := by
    intro p hp
    rw [categoryStep_eq_filter] at hp
    exact hdesc p (List.mem_of_mem_filter hp)
  have hq := qStep_eq_filter q (categoryStep category ps) hdesc1
  have hcomb : (categoryStep category ps).filter (qMatch q) =
      ps.filter (fun p => catMatch category p && qMatch q p) := by
    rw [categoryStep_eq_filter, List.filter_filter]
    apply List.filter_congr
    intro p hp
    rw [Bool.and_comm]
  rw [hcomb] at hq
  have hmain : listHandler ps category q page limit = .listOk
      ⟨(((ps.filter (fun p => catMatch category p && qMatch q p)).drop
          ((effPage page - 1) * effLimit limit).toNat).take (effLimit limit).toNat).length,
       effPage page,
       (ps.filter (fun p => catMatch category p && qMatch q p)).length,
       ((ps.filter (fun p => catMatch category p && qMatch q p)).drop
          ((effPage page - 1) * effLimit limit).toNat).take (effLimit limit).toNat⟩ := by
    simp only [listHandler, hq]
  exact ⟨_, hmain, rfl, rfl, rfl, rfl⟩

theorem list_filters_then_paginates_witness :
    (∀ p ∈ seededProducts, p.description.isStr = true) ∧
    ∃ r : ListResponse,
      listHandler seededProducts (some "electronics") none none none = .listOk r ∧
      r.total = (seededProducts.filter (fun p =>
        catMatch (some "electronics") p && qMatch none p)).length ∧
      r.products = ((seededProducts.filter (fun p =>
        catMatch (some "electronics") p && qMatch none p)).drop
          ((effPage none - 1) * effLimit none).toNat).take (effLimit none).toNat ∧
      r.results = r.products.length ∧
      r.page = effPage none :=
  ⟨by decide,
   list_filters_then_paginates seededProducts (some "electronics") none none none
     (by decide)⟩

theorem handle_preserves_nodup (expected : String) (r : Request) (ps : List Product)
    (hnd : (ps.map Product.id).Nodup) (hf : freshOk ps r = true) :
    (((handle expected r ps).2).map Product.id).Nodup := by
  cases r with
  | get segs category q page limit => simpa [handle] using hnd
  | post key b genId =>
    cases hb : requireApiKey expected key with
    | false => simpa [handle, postHandler, hb] using hnd
    | true =>
      cases hv : (validateProduct b).isEmpty with
      | false => simpa [handle, postHandler, hb, hv] using hnd
      | true =>
        simp only [freshOk] at hf
        have hfr : ∀ x ∈ ps, x.id ≠ genId := by
          intro x hx
          simpa using (List.all_eq_true.mp hf) x hx
        have hgoal : ((ps ++
            [(⟨genId, b.name.asStr, descOrDefault b.description, b.price.asNum,
               b.category.asStr, b.inStock.asBool⟩ : Product)]).map Product.id).Nodup := by
          rw [List.map_append, List.nodup_append]
          refine ⟨hnd, List.nodup_singleton _, ?_⟩
          intro a ha hb2
          simp only [List.map_cons, List.map_nil, List.mem_cons,
            List.not_mem_nil, or_false] at hb2
          obtain ⟨x, hx, rfl⟩ := List.mem_map.mp ha
          exact hfr x hx hb2
        simpa [handle, postHandler, hb, hv] using hgoal
  | put key rid b =>
    cases hb : requireApiKey expected key with
    | false => simpa [handle, putHandler, hb] using hnd
    | true =>
      cases hv : (validateProduct b).isEmpty with
      | false => simpa [handle, putHandler, hb, hv] using hnd
      | true =>
        cases hfi : jsFindIndex (fun p => p.id == rid) ps with
        | none => simpa [handle, putHandler, hb, hv, hfi] using hnd
        | some idx =>
          cases hg : ps[idx]? with
          | none => simpa [handle, putHandler, hb, hv, hfi, hg] using hnd
          | some old =>
            have hset : ((ps.set idx
                (⟨old.id, b.name.asStr, descOrDefault b.description, b.price.asNum,
                  b.category.asStr, b.inStock.asBool⟩ : Product)).map Product.id).Nodup := by
              rw [map_id_set_of_get ps idx
                  ⟨old.id, b.name.asStr, descOrDefault b.description, b.price.asNum,
                   b.category.asStr, b.inStock.asBool⟩ old hg rfl]
              exact hnd
            simpa [handle, putHandler, hb, hv, hfi, hg] using hset
  | delete key rid =>
    cases hb : requireApiKey expected key with
    | false => simpa [handle, deleteHandler, hb] using hnd
    | true =>
      cases hfi : jsFindIndex (fun p => p.id == rid) ps with
      | none => simpa [handle, deleteHandler, hb, hfi] using hnd
      | some idx =>
        cases hg : ps[idx]? with
        | none => simpa [handle, deleteHandler, hb, hfi, hg] using hnd
        | some removed =>
          have hsub : ((jsRemoveAt ps idx).map Product.id).Nodup :=
            List.Nodup.sublist (List.Sublist.map Product.id (jsRemoveAt_sublist ps idx)) hnd
          simpa [handle, deleteHandler, hb, hfi, hg] using hsub

theorem runReqs_nodup (expected : String) (reqs : List Request) :
    ∀ ps : List Product, (ps.map Product.id).Nodup →
      freshRun expected ps reqs = true →
      ((runReqs expected reqs ps).map Product.id).Nodup := by
  induction reqs with
  | nil =>
    intro ps h _
    simpa [runReqs] using h
  | cons r rs ih =>
    intro ps h hf
    simp only [freshRun, Bool.and_eq_true] at hf
    simpa [runReqs] using
      ih (handle expected r ps).2 (handle_preserves_nodup expected r ps h hf.1) hf.2

/-- C9: starting from the seeded collection, every sequence of requests
keeps the stored ids pairwise distinct.  `uuidv4()` is modelled by the
`genId` carried by each create request; the hypothesis `freshRun` states
that each create's generated id is fresh for the collection at that moment,
which is the collision-freedom contract of version-4 UUIDs that the claim's
"assigns a fresh id" sentence describes (the code itself performs no
duplicate check).  Updates never change ids and deletes only remove, so the
invariant is preserved unconditionally by them. -/
theorem ids_pairwise_distinct (envApiKey : Option String) (reqs : List Request)
    (hfresh : freshRun (expectedKey envApiKey) seededProducts reqs = true) :
    ((runReqs (expectedKey envApiKey) reqs seededProducts).map Product.id).Nodup :=
  runReqs_nodup (expectedKey envApiKey) reqs seededProducts (by decide) hfresh

theorem ids_pairwise_distinct_witness :
    ((runReqs (expectedKey none)
        [Request.post (some "secret-key") sampleBody "uuid-1",
         Request.delete (some "secret-key") "2",
         Request.put (some "secret-key") "1" sampleBody]
        seededProducts).map Product.id).Nodup :=
  ids_pairwise_distinct none
    [Request.post (some "secret-key") sampleBody "uuid-1",
     Request.delete (some "secret-key") "2",
     Request.put (some "secret-key") "1" sampleBody]
    (by decide)

theorem postHandler_err_state (expected : String) (key : Option String) (b : Body)
    (genId : String) (ps : List Product) (s : Nat) (msg : String)
    (h : (postHandler expected key b genId ps).1 = .err s msg) :
    (postHandler expected key b genId ps).2 = ps := by
  cases hb : requireApiKey expected key with
  | false => simp [postHandler, hb]
  | true =>
    cases hv : (validateProduct b).isEmpty with
    | false => simp [postHandler, hb, hv]
    | true => simp [postHandler, hb, hv] at h

theorem putHandler_err_state (expected : String) (key : Option String) (rid : String)
    (b : Body) (ps : List Product) (s : Nat) (msg : String)
    (h : (putHandler expected key rid b ps).1 = .err s msg) :
    (putHandler expected key rid b ps).2 = ps := by
  cases hb : requireApiKey expected key with
  | false => simp [putHandler, hb]
  | true =>
    cases hv : (validateProduct b).isEmpty with
    | false => simp [putHandler, hb, hv]
    | true =>
      cases hfi : jsFindIndex (fun p => p.id == rid) ps with
      | none => simp [putHandler, hb, hv, hfi]
      | some idx =>
        cases hg : ps[idx]? with
        | none => simp [putHandler, hb, hv, hfi, hg]
        | some old => simp [putHandler, hb, hv, hfi, hg] at h

theorem deleteHandler_err_state (expected : String) (key : Option String) (rid : String)
    (ps : List Product) (s : Nat) (msg : String)
    (h : (deleteHandler expected key rid ps).1 = .err s msg) :
    (deleteHandler expected key rid ps).2 = ps := by
  cases hb : requireApiKey expected key with
  | false => simp [deleteHandler, hb]
  | true =>
    cases hfi : jsFindIndex (fun p => p.id == rid) ps with
    | none => simp [deleteHandler, hb, hfi]
    | some idx =>
      cases hg : ps[idx]? with
      | none => simp [deleteHandler, hb, hfi, hg]
      | some removed => simp [deleteHandler, hb, hfi, hg] at h

/-- C10: whenever a request is answered with an operational error response
(401 Unauthorized, 400 Validation, or 404 Not-Found), the product
collection after the request is exactly the collection before it — every
error path returns before any mutation of the array, and GET handlers never
mutate at all. -/
theorem error_responses_preserve_state (expected : String) (r : Request)
    (ps : List Product) (s : Nat) (msg : String)
    (h : (handle expected r ps).1 = .err s msg) :
    (handle expected r ps).2 = ps := by
  cases r with
  | get segs category q page limit => rfl
  | post key b genId => exact postHandler_err_state expected key b genId ps s msg h
  | put key rid b => exact putHandler_err_state expected key rid b ps s msg h
  | delete key rid => exact deleteHandler_err_state expected key rid ps s msg h

theorem error_responses_preserve_state_witness :
    (handle (expectedKey none) (Request.delete none "1") seededProducts).2 =
      seededProducts :=
  error_responses_preserve_state (expectedKey none) (Request.delete none "1")
    seededProducts 401 "Invalid or missing API key" rfl
